import Mathlib

/-
Shallow embedding of src/midi_converter/tesla_wav_simulator.py.

Modelling conventions, used throughout:
* Python floats are modelled as exact rationals (every IEEE-754 double is a
  rational number; we idealise the float rounding away, as the specification
  itself does when it writes formulas such as baseClock/(prescaler*f)).
* Python round() rounds half to even (banker's rounding); it is modelled by
  pyRound below.
* Python int() applied to a quotient of integers truncates toward zero; it is
  modelled by Int.tdiv.
* Python code that raises (StopIteration in set_note when no prescaler
  candidate fits, ZeroDivisionError in update when top or prescale is zero)
  is modelled by returning none.
* The transcendental envelope arithmetic (float ** and math.cos) is modelled
  over the reals, see the envelope section.
-/

namespace TeslaWav

/-- Python round(): round to the nearest integer, ties to even, on exact
rationals. -/
def pyRound (x : ℚ) : ℤ :=
  if x - ⌊x⌋ < 1/2 then ⌊x⌋
  else if 1/2 < x - ⌊x⌋ then ⌊x⌋ + 1
  else if ⌊x⌋ % 2 = 0 then ⌊x⌋ else ⌊x⌋ + 1

/-- pyRound returns the floor or the floor plus one. -/
theorem pyRound_eq_floor_or (x : ℚ) : pyRound x = ⌊x⌋ ∨ pyRound x = ⌊x⌋ + 1 := by
  unfold pyRound
  split_ifs <;> simp

/-- Lower bound: pyRound x is at least x - 1/2. -/
theorem sub_half_le_pyRound (x : ℚ) : x - 1/2 ≤ (pyRound x : ℚ) := by
  have hfl : (⌊x⌋ : ℚ) ≤ x := Int.floor_le x
  have hfu : x < (⌊x⌋ : ℚ) + 1 := Int.lt_floor_add_one x
  unfold pyRound
  split_ifs <;> push_cast <;> linarith

/-- Upper bound: pyRound x is at most x + 1/2. -/
theorem pyRound_le_add_half (x : ℚ) : (pyRound x : ℚ) ≤ x + 1/2 := by
  have hfl : (⌊x⌋ : ℚ) ≤ x := Int.floor_le x
  unfold pyRound
  split_ifs with h1 h2 h3
  · linarith
  · push_cast
    linarith
  · linarith
  · push_cast
    have h4 : x - (⌊x⌋ : ℚ) = 1/2 := le_antisymm (not_lt.mp h2) (not_lt.mp h1)
    linarith

/-- pyRound of an integer is that integer. -/
theorem pyRound_intCast (n : ℤ) : pyRound (n : ℚ) = n := by
  unfold pyRound
  simp

/-- pyRound of a nonnegative rational is nonnegative. -/
theorem pyRound_nonneg {x : ℚ} (h : 0 ≤ x) : 0 ≤ pyRound x := by
  by_contra hneg
  have h1 : pyRound x ≤ -1 := by omega
  have h2 : (pyRound x : ℚ) ≤ -1 := by exact_mod_cast h1
  have h3 := sub_half_le_pyRound x
  linarith

/-- pyRound of a rational strictly above one half is at least one. -/
theorem one_le_pyRound {x : ℚ} (h : 1/2 < x) : 1 ≤ pyRound x := by
  have h3 := sub_half_le_pyRound x
  have h4 : (0 : ℚ) < (pyRound x : ℚ) := by linarith
  have h5 : (0 : ℤ) < pyRound x := by exact_mod_cast h4
  omega

/-- Integer upper bound from the rational bound: if x + 1/2 < b + 1 then
pyRound x ≤ b. -/
theorem pyRound_le_of_lt {x : ℚ} {b : ℤ} (h : x + 1/2 < (b : ℚ) + 1) :
    pyRound x ≤ b := by
  have h1 := pyRound_le_add_half x
  have h2 : (pyRound x : ℚ) < (b : ℚ) + 1 := lt_of_le_of_lt h1 h
  have h3 : pyRound x < b + 1 := by exact_mod_cast h2
  omega

/-- Integer lower bound from the rational bound: if b - 1 < x - 1/2 then
b ≤ pyRound x. -/
theorem le_pyRound_of_lt {x : ℚ} {b : ℤ} (h : (b : ℚ) - 1 < x - 1/2) :
    b ≤ pyRound x := by
  have h1 := sub_half_le_pyRound x
  have h2 : (b : ℚ) - 1 < (pyRound x : ℚ) := lt_of_lt_of_le h h1
  have h3 : b - 1 < pyRound x := by exact_mod_cast h2
  omega

/-- COIL_FREQ = 250e3 (Hz). -/
def COIL_FREQ : ℚ := 250000

/-- HALF_CYCLE_LENGTH = 1 / (2 * COIL_FREQ). -/
def HALF_CYCLE_LENGTH : ℚ := 1 / (2 * COIL_FREQ)

/-- MAX_HALF_CYCLES = 10, the maximum number of half cycles in a pulse. -/
def MAX_HALF_CYCLES : ℕ := 10

/-- MAX_PULSE_LENGTH = MAX_HALF_CYCLES * HALF_CYCLE_LENGTH. -/
def MAX_PULSE_LENGTH : ℚ := (MAX_HALF_CYCLES : ℚ) * HALF_CYCLE_LENGTH

/-- ARDUINO_FREQ = 16e6 (Hz), the timer base clock. -/
def ARDUINO_FREQ : ℚ := 16000000

/-- The mutable state of one ArduinoTimerSim instance (the fields set in
ArduinoTimerSim.__init__, source lines 32-40).  Times are seconds, modelled as
exact rationals. -/
structure TimerState where
  max : ℤ
  prescale_values : List ℤ
  prescale : ℤ
  top : ℤ
  min_freq : ℚ
  duty : ℤ
  current : ℤ
  current_t : ℚ
deriving DecidableEq, Repr

/-- ArduinoTimerSim.__init__(max, prescale_values): prescale = 1, top = max,
min_freq = ARDUINO_FREQ / (prescale_values[-1] * top), duty = 0, current = 0,
current_t = 0.  (prescale_values is nonempty for both instances the program
creates; getLastD 0 models the [-1] index.) -/
def ArduinoTimerSim (max : ℤ) (prescale_values : List ℤ) : TimerState :=
  { max := max
    prescale_values := prescale_values
    prescale := 1
    top := max
    min_freq := ARDUINO_FREQ / ((prescale_values.getLastD 0 * max : ℤ) : ℚ)
    duty := 0
    current := 0
    current_t := 0 }

/-- ArduinoTimerSim.set_note (source lines 42-53).  The Python method receives
a MIDI note and computes tgt_freq = get_midi_freq(note) = 440 * 2**((note-69)/12)
in floating point; that float value is some rational number, which this model
takes directly as the tgt_freq argument.  A StopIteration from next() (no
candidate prescaler satisfies the predicate, which happens only in the boundary
case tgt_freq = min_freq and for degenerate configurations) is modelled as
none.  The Python locals (the selected prescaler, the new top, tgt_pulse and
the rounded duty) are inlined into the record update. -/
def TimerState.set_note (s : TimerState) (tgt_freq : ℚ) (volume : ℕ) :
    Option TimerState :=
  if tgt_freq < s.min_freq then some s
  else
    match s.prescale_values.find?
        (fun v => decide (ARDUINO_FREQ / ((s.max * v : ℤ) : ℚ) < tgt_freq)) with
    | none => none
    | some v =>
      some { s with
        prescale := v,
        top := pyRound (ARDUINO_FREQ / ((v : ℚ) * tgt_freq)),
        current := if pyRound (ARDUINO_FREQ / ((v : ℚ) * tgt_freq)) ≤ s.current
                   then 0 else s.current,
        duty := if pyRound (((min volume MAX_HALF_CYCLES : ℕ) : ℚ) *
                    HALF_CYCLE_LENGTH * ARDUINO_FREQ / (v : ℚ)) = 0 then 1
                else pyRound (((min volume MAX_HALF_CYCLES : ℕ) : ℚ) *
                    HALF_CYCLE_LENGTH * ARDUINO_FREQ / (v : ℚ)) }

/-- ArduinoTimerSim.set_off (source lines 57-58): duty = 0. -/
def TimerState.set_off (s : TimerState) : TimerState :=
  { s with duty := 0 }

/-- ArduinoTimerSim.current_state (source lines 60-61): current < duty. -/
def TimerState.current_state (s : TimerState) : Bool :=
  decide (s.current < s.duty)

/-- ArduinoTimerSim.next_change (source lines 63-67). -/
def TimerState.next_change (s : TimerState) : ℚ :=
  if s.current_state then
    s.current_t + ((s.duty - s.current : ℤ) : ℚ) * (s.prescale : ℚ) / ARDUINO_FREQ
  else
    s.current_t + ((s.top - s.current : ℤ) : ℚ) * (s.prescale : ℚ) / ARDUINO_FREQ

/-- ArduinoTimerSim.update (source lines 69-73): advance by
round((t - current_t) * ARDUINO_FREQ / prescale) ticks and reduce by
top * int(current / top) (truncating division).  Python raises
ZeroDivisionError when prescale or top is zero; modelled as none (neither is
reachable for the program's configurations). -/
def TimerState.update (s : TimerState) (t : ℚ) : Option TimerState :=
  if s.prescale = 0 ∨ s.top = 0 then none
  else
    let ticks := pyRound ((t - s.current_t) * ARDUINO_FREQ / (s.prescale : ℚ))
    let c := s.current + ticks
    some { s with current := c - s.top * Int.tdiv c s.top, current_t := t }

/-- Initial state of the module-level global Timer1 = ArduinoTimerSim(1 << 16,
[1, 8, 64, 256, 1024]) (source line 76). -/
def Timer1 : TimerState := ArduinoTimerSim 65536 [1, 8, 64, 256, 1024]

/-- Initial state of the module-level global Timer2 = ArduinoTimerSim(1 << 8,
[1, 8, 32, 64, 128, 256, 1024]) (source line 77). -/
def Timer2 : TimerState := ArduinoTimerSim 256 [1, 8, 32, 64, 128, 256, 1024]

/-- One parsed MIDI command as consumed by generate_logic_signal.
Modelled from the spec: the event-stream type is produced by
get_midi_commands of the arduino_midi module, which is code of this repository
outside src/; spec section 6 gives its shape (delta time in musical ticks,
kind in tempo-set, note-on, note-off, both-off, tempo in microseconds per
quarter note for tempo-set, timer selector in 1..2, pitch, nonnegative
intensity).  The Python command types begin_program and set_tempo are handled
identically at source line 114 and are merged into tempoSet. -/
inductive MidiCmd where
  | tempoSet (time : ℤ) (tempo : ℤ)
  | noteOn (time : ℤ) (timer : ℤ) (note : ℤ) (volume : ℕ)
  | noteOff (time : ℤ) (timer : ℤ)
  | bothOff (time : ℤ)
deriving DecidableEq, Repr

/-- The delta time (in musical ticks) of a command. -/
def MidiCmd.time : MidiCmd → ℤ
  | .tempoSet t _ => t
  | .noteOn t _ _ _ => t
  | .noteOff t _ => t
  | .bothOff t => t

/-- The tempo carried by a tempo-set command (0 for the other kinds). -/
def MidiCmd.tempoVal : MidiCmd → ℤ
  | .tempoSet _ tp => tp
  | _ => 0

/-- Validity of an externally supplied command, from spec section 6: delta
ticks and tempo values are nonnegative. -/
def MidiCmd.Valid (c : MidiCmd) : Prop := 0 ≤ c.time ∧ 0 ≤ c.tempoVal

instance (c : MidiCmd) : Decidable c.Valid := by
  unfold MidiCmd.Valid
  infer_instance

/-- The local state of one generate_logic_signal run (source lines 82-87):
the two global timers it drives, current_state, current_pulse_start, the
accumulated pulse list, current_t and current_tempo. -/
structure GenState where
  t1 : TimerState
  t2 : TimerState
  current_state : Bool
  current_pulse_start : ℚ
  pulses : List (ℚ × ℚ)
  current_t : ℚ
  current_tempo : ℤ
deriving DecidableEq, Repr

/-- The nested function update_state(t) (source lines 89-101): update both
timers to t, recompute the composite energized state, and on a falling edge
append the pulse (current_pulse_start, min(current_pulse_start +
MAX_PULSE_LENGTH, t)). -/
def update_state (g : GenState) (t : ℚ) : Option GenState :=
  match g.t1.update t, g.t2.update t with
  | some t1, some t2 =>
    if (t1.current_state || t2.current_state) = g.current_state then
      some { g with t1 := t1, t2 := t2, current_t := t }
    else if t1.current_state || t2.current_state then
      some { g with t1 := t1, t2 := t2, current_t := t,
                    current_state := t1.current_state || t2.current_state,
                    current_pulse_start := t }
    else
      some { g with t1 := t1, t2 := t2, current_t := t,
                    current_state := t1.current_state || t2.current_state,
                    pulses := g.pulses ++
                      [(g.current_pulse_start,
                        min (g.current_pulse_start + MAX_PULSE_LENGTH) t)] }
  | _, _ => none

/-- The while loop of source lines 108-113: while the cursor is behind cmd_t,
advance it to the earlier of the two timers' next_change when that precedes
cmd_t, else to cmd_t (after which the loop exits).  The loop has no structural
termination measure, so it runs on fuel; none means the fuel ran out while the
Python loop would still be iterating. -/
def advance (fuel : ℕ) (g : GenState) (cmd_t : ℚ) : Option GenState :=
  match fuel with
  | 0 => if g.current_t < cmd_t then none else some g
  | fuel + 1 =>
    if g.current_t < cmd_t then
      if min g.t1.next_change g.t2.next_change < cmd_t then
        match update_state g (min g.t1.next_change g.t2.next_change) with
        | some g2 => advance fuel g2 cmd_t
        | none => none
      else
        update_state g cmd_t
    else some g

/-- Command dispatch (source lines 114-122).  Python indexes
ArduinoTimers[cmd.timer - 1]; selectors 1 and -1 reach Timer1, selectors 2 and
0 reach Timer2 (negative-index wraparound), and anything else raises
IndexError (modelled none).  The interface only ever supplies 1 or 2. -/
def applyCmd (get_midi_freq : ℤ → ℚ) (g : GenState) : MidiCmd → Option GenState
  | .tempoSet _ tempo => some { g with current_tempo := tempo }
  | .noteOff _ timer =>
    if timer = 1 ∨ timer = -1 then some { g with t1 := g.t1.set_off }
    else if timer = 2 ∨ timer = 0 then some { g with t2 := g.t2.set_off }
    else none
  | .bothOff _ => some { g with t1 := g.t1.set_off, t2 := g.t2.set_off }
  | .noteOn _ timer note volume =>
    if timer = 1 ∨ timer = -1 then
      (g.t1.set_note (get_midi_freq note) volume).map (fun t1 => { g with t1 := t1 })
    else if timer = 2 ∨ timer = 0 then
      (g.t2.set_note (get_midi_freq note) volume).map (fun t2 => { g with t2 := t2 })
    else none

/-- One iteration of the for-loop body of generate_logic_signal (source lines
105-123): cmd_t = last_cmd_t + cmd.time * current_tempo / (1e6 *
ticks_per_beat), advance the cursor to cmd_t, apply the command, then
update_state(cmd_t). -/
def step (fuel : ℕ) (get_midi_freq : ℤ → ℚ) (ticks_per_beat : ℤ)
    (last_cmd_t : ℚ) (g : GenState) (cmd : MidiCmd) : Option (ℚ × GenState) :=
  let cmd_t := last_cmd_t +
    ((cmd.time * g.current_tempo : ℤ) : ℚ) / (1000000 * (ticks_per_beat : ℚ))
  match advance fuel g cmd_t with
  | none => none
  | some g1 =>
    match applyCmd get_midi_freq g1 cmd with
    | none => none
    | some g2 =>
      match update_state g2 cmd_t with
      | none => none
      | some g3 => some (cmd_t, g3)

/-- The for loop of generate_logic_signal over the whole command list,
threading last_cmd_t and the generator state. -/
def run_cmds (fuel : ℕ) (get_midi_freq : ℤ → ℚ) (ticks_per_beat : ℤ) :
    ℚ → GenState → List MidiCmd → Option GenState
  | _, g, [] => some g
  | last_cmd_t, g, cmd :: rest =>
    match step fuel get_midi_freq ticks_per_beat last_cmd_t g cmd with
    | none => none
    | some (t, g2) => run_cmds fuel get_midi_freq ticks_per_beat t g2 rest

/-- generate_logic_signal (source lines 81-125).  The timers it drives are
module-level globals in Python, so their incoming states are explicit
parameters here and their final states are returned alongside the pulse list;
a freshly started interpreter has them at Timer1 and Timer2.  The local state
starts with current_state = True, current_pulse_start = 0, no pulses, cursor
and tempo 0.  get_midi_freq note is the frequency 440 * 2**((note - 69)/12)
computed by the source's get_midi_freq (source lines 24-25) in floating point;
it is a parameter because its float value is irrational-valued in general. -/
def generate_logic_signal (fuel : ℕ) (get_midi_freq : ℤ → ℚ)
    (ticks_per_beat : ℤ) (t1 t2 : TimerState) (cmds : List MidiCmd) :
    Option (List (ℚ × ℚ) × TimerState × TimerState) :=
  (run_cmds fuel get_midi_freq ticks_per_beat 0
      { t1 := t1, t2 := t2, current_state := true, current_pulse_start := 0,
        pulses := [], current_t := 0, current_tempo := 0 } cmds).map
    (fun g => (g.pulses, g.t1, g.t2))

/-- The equal-tempered frequency table restricted to A4: the concrete runs in
this file use only note 69, whose frequency 440 * 2^0 = 440 is exactly
representable. -/
def freqA4 : ℤ → ℚ := fun note => if note = 69 then 440 else 0

/-- FIRST_PULSE_ON_TIME = 1.0 (source line 148). -/
def FIRST_PULSE_ON_TIME : ℚ := 1

/-- LAST_PULSE_OFF_TIME = 1.0 (source line 149). -/
def LAST_PULSE_OFF_TIME : ℚ := 1

/-- The last-pulse access performed by generate_wav before sampling (source
lines 159 and 163): logic_pulses[-1][-1] + LAST_PULSE_OFF_TIME.  Indexing a
Python list with [-1] when it is empty raises IndexError, modelled none. -/
def generate_wav_last_t (logic_pulses : List (ℚ × ℚ)) : Option ℚ :=
  (logic_pulses.getLast?).map (fun p => p.2 + LAST_PULSE_OFF_TIME)

theorem ARDUINO_FREQ_pos : (0 : ℚ) < ARDUINO_FREQ := by norm_num [ARDUINO_FREQ]

theorem MAX_PULSE_LENGTH_eq : MAX_PULSE_LENGTH = 1 / 50000 := by
  norm_num [MAX_PULSE_LENGTH, MAX_HALF_CYCLES, HALF_CYCLE_LENGTH, COIL_FREQ]

/-- update at a time not before last_sync_time keeps the counter inside
[0, top) and does not touch any other field but current_t. -/
theorem update_bounds (s : TimerState) (t : ℚ) (hp : 0 < s.prescale)
    (h0 : 0 ≤ s.current) (htop : 0 < s.top) (ht : s.current_t ≤ t) :
    ∃ s', s.update t = some s' ∧ 0 ≤ s'.current ∧ s'.current < s.top ∧
      s'.current_t = t ∧ s'.top = s.top ∧ s'.duty = s.duty ∧
      s'.prescale = s.prescale ∧ s'.max = s.max ∧
      s'.prescale_values = s.prescale_values ∧ s'.min_freq = s.min_freq := by
  have hticks : 0 ≤ pyRound ((t - s.current_t) * ARDUINO_FREQ / (s.prescale : ℚ)) := by
    apply pyRound_nonneg
    apply div_nonneg
    · apply mul_nonneg (by linarith) (le_of_lt ARDUINO_FREQ_pos)
    · exact_mod_cast hp.le
  unfold TimerState.update
  rw [if_neg (by simp [hp.ne', htop.ne'])]
  refine ⟨_, rfl, ?_, ?_, rfl, rfl, rfl, rfl, rfl, rfl, rfl⟩ <;>
    simp only [] <;>
    rw [show s.current + pyRound ((t - s.current_t) * ARDUINO_FREQ / (s.prescale : ℚ)) -
          s.top * (s.current + pyRound ((t - s.current_t) * ARDUINO_FREQ /
            (s.prescale : ℚ))).tdiv s.top =
        (s.current + pyRound ((t - s.current_t) * ARDUINO_FREQ / (s.prescale : ℚ))) % s.top
      from by rw [Int.tdiv_eq_ediv (by omega) htop.le, Int.emod_def]]
  · exact Int.emod_nonneg _ htop.ne'
  · exact Int.emod_lt_of_pos _ htop

set_option maxRecDepth 100000 in
/-- The element returned by find? satisfies the predicate. -/
theorem find?_pred {l : List ℤ} {p : ℤ → Bool} {v : ℤ}
    (h : l.find? p = some v) : p v = true := by
  induction l with
  | nil => simp at h
  | cons a l ih =>
    cases hpa : p a with
    | true =>
      rw [List.find?_cons_of_pos _ hpa] at h
      obtain rfl : a = v := by simpa using h
      exact hpa
    | false =>
      rw [List.find?_cons_of_neg _ (by simp [hpa])] at h
      exact ih h

/-- find? on a list sorted by ≤ returns a member satisfying the predicate
that is least among all members satisfying it. -/
theorem find?_sorted_min {l : List ℤ} {p : ℤ → Bool} {v : ℤ}
    (hs : l.Sorted (· ≤ ·)) (h : l.find? p = some v) :
    v ∈ l ∧ p v = true ∧ ∀ w ∈ l, p w = true → v ≤ w := by
  induction l with
  | nil => simp at h
  | cons a l ih =>
    cases hpa : p a with
    | true =>
      rw [List.find?_cons_of_pos _ hpa] at h
      obtain rfl : a = v := by simpa using h
      refine ⟨List.mem_cons_self _ _, hpa, ?_⟩
      intro w hw _
      rcases List.mem_cons.mp hw with rfl | hw
      · exact le_refl w
      · exact (List.sorted_cons.mp hs).1 w hw
    | false =>
      rw [List.find?_cons_of_neg _ (by simp [hpa])] at h
      obtain ⟨hv, hpv, hmin⟩ := ih (List.sorted_cons.mp hs).2 h
      refine ⟨List.mem_cons_of_mem _ hv, hpv, ?_⟩
      intro w hw hpw
      rcases List.mem_cons.mp hw with rfl | hw
      · rw [hpa] at hpw
        cases hpw
      · exact hmin w hw hpw

/-- Wellformedness of a timer configuration as established by
ArduinoTimerSim.__init__ for the program's two instances: positive max, a
nonempty ascending candidate list of positive prescalers, and min_freq as set
from the last candidate. -/
def TimerWF (s : TimerState) : Prop :=
  0 < s.max ∧ s.prescale_values ≠ [] ∧ s.prescale_values.Sorted (· ≤ ·) ∧
  (∀ v ∈ s.prescale_values, 0 < v) ∧
  s.min_freq = ARDUINO_FREQ / ((s.prescale_values.getLastD 0 * s.max : ℤ) : ℚ)

/-- C4: for a wellformed timer, set_note is a no-op when the target frequency
is below the minimum representable frequency baseClock/(maxCounter *
largestPrescaler); when it is strictly above that floor (the floor itself is
never the exact equal-tempered frequency of an integer note), set_note selects
the smallest candidate prescaler v with baseClock/(maxCounter * v) < f, sets
period = round(baseClock/(v * f)), resets the counter to zero exactly when it
is at least the new period, and sets duty to the rounded tick count of the
capped pulse width min(intensity, 10) half-cycles, clamped to at least one
tick. -/
theorem c4_set_note_spec (s : TimerState) (f : ℚ) (vol : ℕ) (hwf : TimerWF s) :
    (f < s.min_freq → s.set_note f vol = some s) ∧
    (s.min_freq < f →
      ∃ v, v ∈ s.prescale_values ∧
        ARDUINO_FREQ / ((s.max * v : ℤ) : ℚ) < f ∧
        (∀ w ∈ s.prescale_values, ARDUINO_FREQ / ((s.max * w : ℤ) : ℚ) < f → v ≤ w) ∧
        s.set_note f vol = some { s with
          prescale := v,
          top := pyRound (ARDUINO_FREQ / ((v : ℚ) * f)),
          current := if pyRound (ARDUINO_FREQ / ((v : ℚ) * f)) ≤ s.current
                     then 0 else s.current,
          duty := if pyRound (((min vol MAX_HALF_CYCLES : ℕ) : ℚ) *
                      HALF_CYCLE_LENGTH * ARDUINO_FREQ / (v : ℚ)) = 0 then 1
                  else pyRound (((min vol MAX_HALF_CYCLES : ℕ) : ℚ) *
                      HALF_CYCLE_LENGTH * ARDUINO_FREQ / (v : ℚ)) }) := by
  obtain ⟨hmax, hne, hsort, hpos, hminf⟩ := hwf
  constructor
  · intro hf
    unfold TimerState.set_note
    rw [if_pos hf]
  · intro hf
    have hlast_mem : s.prescale_values.getLastD 0 ∈ s.prescale_values := by
      rw [List.getLastD_eq_getLast?]
      cases hl : s.prescale_values.getLast? with
      | none => exact absurd (List.getLast?_eq_none_iff.mp hl) hne
      | some a => exact List.mem_of_mem_getLast? hl
    have hlast_pred :
        (fun v => decide (ARDUINO_FREQ / ((s.max * v : ℤ) : ℚ) < f))
          (s.prescale_values.getLastD 0) = true := by
      apply decide_eq_true
      rw [show ((s.max * s.prescale_values.getLastD 0 : ℤ) : ℚ) =
          ((s.prescale_values.getLastD 0 * s.max : ℤ) : ℚ) from by
        push_cast
        ring]
      rw [← hminf]
      exact hf
    have hsome : (s.prescale_values.find?
        (fun v => decide (ARDUINO_FREQ / ((s.max * v : ℤ) : ℚ) < f))).isSome := by
      rw [List.find?_isSome]
      exact ⟨_, hlast_mem, hlast_pred⟩
    obtain ⟨v, hfind⟩ := Option.isSome_iff_exists.mp hsome
    obtain ⟨hvmem, hpv, hmin⟩ := find?_sorted_min hsort hfind
    refine ⟨v, hvmem, of_decide_eq_true hpv,
      fun w hw hpw => hmin w hw (decide_eq_true hpw), ?_⟩
    unfold TimerState.set_note
    rw [if_neg (not_lt.mpr hf.le), hfind]

/-- The three TimerState invariants of the claim: 0 ≤ counter < period,
duty ≤ period, prescaler a member of the candidate list. -/
def TimerInv (s : TimerState) : Prop :=
  0 ≤ s.current ∧ s.current < s.top ∧ s.duty ≤ s.top ∧
  s.prescale ∈ s.prescale_values

/-- The static configuration of the two timer instances the program creates
(source lines 76-77). -/
def TimerConfig (s : TimerState) : Prop :=
  (s.max = 65536 ∧ s.prescale_values = [1, 8, 64, 256, 1024]) ∨
  (s.max = 256 ∧ s.prescale_values = [1, 8, 32, 64, 128, 256, 1024])

/-- The duty computed by set_note stays at or below the new period, given the
per-prescaler numeric bounds dB (duty bound) and tB (period lower bound). -/
theorem set_note_duty_le_top (f : ℚ) (vol : ℕ) (v dB tB : ℤ)
    (hvpos : 0 < v) (hf0 : 0 < f) (hf : f ≤ 12544)
    (hdB : 320 / (v : ℚ) + 1/2 < (dB : ℚ) + 1)
    (htB : (tB : ℚ) - 1 < ARDUINO_FREQ / ((v : ℚ) * 12544) - 1/2)
    (h1B : 1 ≤ tB) (h2B : dB ≤ tB) :
    (if pyRound (((min vol MAX_HALF_CYCLES : ℕ) : ℚ) * HALF_CYCLE_LENGTH *
        ARDUINO_FREQ / (v : ℚ)) = 0 then 1
     else pyRound (((min vol MAX_HALF_CYCLES : ℕ) : ℚ) * HALF_CYCLE_LENGTH *
        ARDUINO_FREQ / (v : ℚ))) ≤ pyRound (ARDUINO_FREQ / ((v : ℚ) * f)) := by
  have hvQ : (0 : ℚ) < (v : ℚ) := by exact_mod_cast hvpos
  have hmv : ((min vol MAX_HALF_CYCLES : ℕ) : ℚ) ≤ 10 := by
    have : min vol MAX_HALF_CYCLES ≤ 10 := min_le_right vol 10
    exact_mod_cast this
  have harg : ((min vol MAX_HALF_CYCLES : ℕ) : ℚ) * HALF_CYCLE_LENGTH *
      ARDUINO_FREQ / (v : ℚ) ≤ 320 / (v : ℚ) := by
    unfold HALF_CYCLE_LENGTH COIL_FREQ ARDUINO_FREQ
    rw [div_le_div_iff₀ hvQ hvQ]
    nlinarith [hmv, hvQ]
  have hduty : pyRound (((min vol MAX_HALF_CYCLES : ℕ) : ℚ) * HALF_CYCLE_LENGTH *
      ARDUINO_FREQ / (v : ℚ)) ≤ dB :=
    pyRound_le_of_lt (lt_of_le_of_lt (by linarith) hdB)
  have htop : tB ≤ pyRound (ARDUINO_FREQ / ((v : ℚ) * f)) := by
    apply le_pyRound_of_lt
    have hmono : ARDUINO_FREQ / ((v : ℚ) * 12544) ≤ ARDUINO_FREQ / ((v : ℚ) * f) := by
      apply div_le_div_of_nonneg_left (le_of_lt ARDUINO_FREQ_pos)
      · positivity
      · nlinarith
    linarith
  split_ifs
  · omega
  · omega

/-- C5: each timer operation preserves the TimerState invariants, for the two
timer configurations the program constructs: set_note for any target frequency
of a MIDI pitch 0-127 (all of which lie below 12544 Hz), set_off, and update
called with a target time at or after last_sync_time. -/
theorem c5_invariants (s : TimerState) (hcfg : TimerConfig s) (hinv : TimerInv s) :
    (∀ f vol s', f ≤ 12544 → s.set_note f vol = some s' → TimerInv s') ∧
    TimerInv s.set_off ∧
    (∀ t s', s.current_t ≤ t → s.update t = some s' → TimerInv s') := by
  obtain ⟨hc0, hct, hdt, hpmem⟩ := hinv
  have hallpos : ∀ v ∈ s.prescale_values, 0 < v := by
    rcases hcfg with ⟨-, hl⟩ | ⟨-, hl⟩ <;> rw [hl] <;> decide
  have hppos : 0 < s.prescale := hallpos _ hpmem
  have hmax : (0 : ℤ) < s.max := by
    rcases hcfg with ⟨h, -⟩ | ⟨h, -⟩ <;> rw [h] <;> norm_num
  refine ⟨?_, ?_, ?_⟩
  · intro f vol s' hf hsn
    unfold TimerState.set_note at hsn
    by_cases hlow : f < s.min_freq
    · rw [if_pos hlow] at hsn
      injection hsn with h
      subst h
      exact ⟨hc0, hct, hdt, hpmem⟩
    · rw [if_neg hlow] at hsn
      cases hfind : s.prescale_values.find?
          (fun v => decide (ARDUINO_FREQ / ((s.max * v : ℤ) : ℚ) < f)) with
      | none =>
        rw [hfind] at hsn
        cases hsn
      | some v =>
        rw [hfind] at hsn
        injection hsn with h
        subst h
        have hvmem : v ∈ s.prescale_values := List.mem_of_find?_eq_some hfind
        have hpredB : decide (ARDUINO_FREQ / ((s.max * v : ℤ) : ℚ) < f) = true :=
          find?_pred hfind
        have hpred : ARDUINO_FREQ / ((s.max * v : ℤ) : ℚ) < f :=
          of_decide_eq_true hpredB
        have hvpos : 0 < v := hallpos _ hvmem
        have hf0 : 0 < f := by
          refine lt_trans ?_ hpred
          apply div_pos ARDUINO_FREQ_pos
          exact_mod_cast mul_pos hmax hvpos
        have hvf : (v : ℚ) * f < 2 * ARDUINO_FREQ := by
          have hv1024 : (v : ℚ) ≤ 1024 := by
            have : ∀ w ∈ s.prescale_values, w ≤ 1024 := by
              rcases hcfg with ⟨-, hl⟩ | ⟨-, hl⟩ <;> rw [hl] <;> decide
            exact_mod_cast this _ hvmem
          unfold ARDUINO_FREQ
          nlinarith
        have htop1 : 1 ≤ pyRound (ARDUINO_FREQ / ((v : ℚ) * f)) := by
          apply one_le_pyRound
          rw [lt_div_iff₀ (by positivity)]
          linarith
        have hduty : (if pyRound (((min vol MAX_HALF_CYCLES : ℕ) : ℚ) *
            HALF_CYCLE_LENGTH * ARDUINO_FREQ / (v : ℚ)) = 0 then 1
            else pyRound (((min vol MAX_HALF_CYCLES : ℕ) : ℚ) *
              HALF_CYCLE_LENGTH * ARDUINO_FREQ / (v : ℚ))) ≤
            pyRound (ARDUINO_FREQ / ((v : ℚ) * f)) := by
          rcases hcfg with ⟨-, hl⟩ | ⟨-, hl⟩ <;> rw [hl] at hvmem <;>
            simp only [List.mem_cons, List.not_mem_nil, or_false] at hvmem <;>
            rcases hvmem with rfl | rfl | rfl | rfl | rfl | rfl | rfl
          · exact set_note_duty_le_top f vol 1 320 1276 (by norm_num) hf0 hf
              (by norm_num) (by norm_num [ARDUINO_FREQ]) (by norm_num) (by norm_num)
          · exact set_note_duty_le_top f vol 8 40 159 (by norm_num) hf0 hf
              (by norm_num) (by norm_num [ARDUINO_FREQ]) (by norm_num) (by norm_num)
          · exact set_note_duty_le_top f vol 64 5 20 (by norm_num) hf0 hf
              (by norm_num) (by norm_num [ARDUINO_FREQ]) (by norm_num) (by norm_num)
          · exact set_note_duty_le_top f vol 256 1 5 (by norm_num) hf0 hf
              (by norm_num) (by norm_num [ARDUINO_FREQ]) (by norm_num) (by norm_num)
          · exact set_note_duty_le_top f vol 1024 0 1 (by norm_num) hf0 hf
              (by norm_num) (by norm_num [ARDUINO_FREQ]) (by norm_num) (by norm_num)
          · exact set_note_duty_le_top f vol 1 320 1276 (by norm_num) hf0 hf
              (by norm_num) (by norm_num [ARDUINO_FREQ]) (by norm_num) (by norm_num)
          · exact set_note_duty_le_top f vol 8 40 159 (by norm_num) hf0 hf
              (by norm_num) (by norm_num [ARDUINO_FREQ]) (by norm_num) (by norm_num)
          · exact set_note_duty_le_top f vol 32 10 40 (by norm_num) hf0 hf
              (by norm_num) (by norm_num [ARDUINO_FREQ]) (by norm_num) (by norm_num)
          · exact set_note_duty_le_top f vol 64 5 20 (by norm_num) hf0 hf
              (by norm_num) (by norm_num [ARDUINO_FREQ]) (by norm_num) (by norm_num)
          · exact set_note_duty_le_top f vol 128 3 10 (by norm_num) hf0 hf
              (by norm_num) (by norm_num [ARDUINO_FREQ]) (by norm_num) (by norm_num)
          · exact set_note_duty_le_top f vol 256 1 5 (by norm_num) hf0 hf
              (by norm_num) (by norm_num [ARDUINO_FREQ]) (by norm_num) (by norm_num)
          · exact set_note_duty_le_top f vol 1024 0 1 (by norm_num) hf0 hf
              (by norm_num) (by norm_num [ARDUINO_FREQ]) (by norm_num) (by norm_num)
        refine ⟨?_, ?_, hduty, hvmem⟩
        · dsimp only
          split_ifs <;> omega
        · dsimp only
          split_ifs with h
          · omega
          · omega
  · unfold TimerState.set_off TimerInv
    dsimp only
    exact ⟨hc0, hct, by omega, hpmem⟩
  · intro t s' ht hup
    obtain ⟨s'', hup', h0, hlt, -, htop, hduty, hpre, -, hpv, -⟩ :=
      update_bounds s t hppos hc0 (by omega) ht
    rw [hup'] at hup
    injection hup with h
    subst h
    exact ⟨h0, by omega, by omega, by rw [hpre, hpv]; exact hpmem⟩
/-- C2: an empty event stream produces the empty pulse list (for any fuel,
frequency table, resolution and incoming timer states), and generate_wav's
very next step — the logic_pulses[-1] access of source lines 159/163 — is an
out-of-bounds access on that empty list (IndexError, modelled none) instead of
an explicit nothing-to-render condition. -/
theorem c2_empty_stream_crash (fuel : ℕ) (gmf : ℤ → ℚ) (tpb : ℤ)
    (t1 t2 : TimerState) :
    generate_logic_signal fuel gmf tpb t1 t2 [] = some ([], t1, t2) ∧
    generate_wav_last_t [] = none :=
  ⟨rfl, rfl⟩

/-- C6 amended: for a timer state holding an active note — counter within
[0, period), 1 ≤ duty < period, positive prescaler — advancing with update to
the time returned by next_change flips current_state, at the duty boundary
(high to low) as well as at the period boundary (low to high). -/
theorem c6_flip (s : TimerState) (hp : 0 < s.prescale) (hc0 : 0 ≤ s.current)
    (hct : s.current < s.top) (hd1 : 1 ≤ s.duty) (hdt : s.duty < s.top) :
    (s.update s.next_change).map TimerState.current_state =
      some (!s.current_state) := by
  have htop : 0 < s.top := lt_of_le_of_lt hc0 hct
  have hpne : (s.prescale : ℚ) ≠ 0 := by exact_mod_cast hp.ne'
  have hFne : ARDUINO_FREQ ≠ 0 := ARDUINO_FREQ_pos.ne'
  cases hcs : s.current_state with
  | true =>
    have hcd : s.current < s.duty := by
      have := hcs
      unfold TimerState.current_state at this
      exact of_decide_eq_true this
    have hnc : s.next_change = s.current_t +
        ((s.duty - s.current : ℤ) : ℚ) * (s.prescale : ℚ) / ARDUINO_FREQ := by
      unfold TimerState.next_change
      rw [if_pos hcs]
    have hticks : pyRound ((s.next_change - s.current_t) * ARDUINO_FREQ /
        (s.prescale : ℚ)) = s.duty - s.current := by
      rw [hnc, show (s.current_t + ((s.duty - s.current : ℤ) : ℚ) *
          (s.prescale : ℚ) / ARDUINO_FREQ - s.current_t) * ARDUINO_FREQ /
          (s.prescale : ℚ) = ((s.duty - s.current : ℤ) : ℚ) from by
            field_simp
            ring]
      exact pyRound_intCast _
    unfold TimerState.update
    rw [if_neg (by simp [hp.ne', htop.ne'])]
    simp only [hticks, Option.map_some']
    unfold TimerState.current_state
    simp only []
    rw [show s.current + (s.duty - s.current) = s.duty from by ring,
      Int.tdiv_eq_zero_of_lt (by omega) hdt]
    simp
  | false =>
    have hcd : s.duty ≤ s.current := by
      have := hcs
      unfold TimerState.current_state at this
      simpa using of_decide_eq_false this
    have hnc : s.next_change = s.current_t +
        ((s.top - s.current : ℤ) : ℚ) * (s.prescale : ℚ) / ARDUINO_FREQ := by
      unfold TimerState.next_change
      rw [if_neg (by simp [hcs])]
    have hticks : pyRound ((s.next_change - s.current_t) * ARDUINO_FREQ /
        (s.prescale : ℚ)) = s.top - s.current := by
      rw [hnc, show (s.current_t + ((s.top - s.current : ℤ) : ℚ) *
          (s.prescale : ℚ) / ARDUINO_FREQ - s.current_t) * ARDUINO_FREQ /
          (s.prescale : ℚ) = ((s.top - s.current : ℤ) : ℚ) from by
            field_simp
            ring]
      exact pyRound_intCast _
    unfold TimerState.update
    rw [if_neg (by simp [hp.ne', htop.ne'])]
    simp only [hticks, Option.map_some']
    unfold TimerState.current_state
    simp only []
    rw [show s.current + (s.top - s.current) = s.top from by ring,
      Int.tdiv_self htop.ne']
    simp only [mul_one, sub_self]
    simpa using hd1

/-- C6 amended, witness: the state of Timer1 right after set_note(69, 10)
(period 36364, duty 320, counter 0) satisfies every hypothesis, and update to
next_change flips the output from high to low. -/
theorem c6_flip_witness :
    (0 : ℤ) < 1 ∧ (0 : ℤ) ≤ 0 ∧ (0 : ℤ) < 36364 ∧ (1 : ℤ) ≤ 320 ∧
      (320 : ℤ) < 36364 ∧
    (({ Timer1 with top := 36364, duty := 320 } : TimerState).update
        ({ Timer1 with top := 36364, duty := 320 } : TimerState).next_change).map
        TimerState.current_state =
      some (!({ Timer1 with top := 36364, duty := 320 } : TimerState).current_state) :=
  ⟨by norm_num, by norm_num, by norm_num, by norm_num, by norm_num,
    c6_flip { Timer1 with top := 36364, duty := 320 } (by norm_num [Timer1, ArduinoTimerSim])
      (by norm_num [Timer1, ArduinoTimerSim]) (by norm_num [Timer1, ArduinoTimerSim])
      (by norm_num [Timer1, ArduinoTimerSim]) (by norm_num [Timer1, ArduinoTimerSim])⟩

noncomputable section

/-- PULSE_INIT = 0.0, the initial attack value of a pulse (source line 15). -/
def PULSE_INIT : ℝ := 0

/-- PULSE_MAX = 32767.0, the maximum pulse volume (source line 16). -/
def PULSE_MAX : ℝ := 32767

/-- PULSE_STEP = PULSE_MAX / MAX_HALF_CYCLES (source line 17). -/
def PULSE_STEP : ℝ := PULSE_MAX / (MAX_HALF_CYCLES : ℝ)

/-- PULSE_SLOPE = PULSE_STEP / HALF_CYCLE_LENGTH (source line 18). -/
def PULSE_SLOPE : ℝ := PULSE_STEP / (HALF_CYCLE_LENGTH : ℝ)

/-- ENERGY_TRANSFER_HALF_CYCLES = 8 (source line 128). -/
def ENERGY_TRANSFER_HALF_CYCLES : ℕ := 8

/-- ENERGY_TRANSFER_TIME = ENERGY_TRANSFER_HALF_CYCLES * HALF_CYCLE_LENGTH
(source line 129). -/
def ENERGY_TRANSFER_TIME : ℝ :=
  (ENERGY_TRANSFER_HALF_CYCLES : ℝ) * (HALF_CYCLE_LENGTH : ℝ)

/-- ENERGY_TRANSFER_SPARK_DECAY = 0.5 (source line 130). -/
def ENERGY_TRANSFER_SPARK_DECAY : ℝ := 1/2

/-- ENERGY_TRANSFER_EXPONENTIAL_DECAY_START = 0.1 (source line 131). -/
def ENERGY_TRANSFER_EXPONENTIAL_DECAY_START : ℝ := 1/10

/-- Python int() on a real value: truncation toward zero. -/
def intTrunc (x : ℝ) : ℤ := if 0 ≤ x then ⌊x⌋ else -⌊-x⌋

/-- envelope (source lines 134-146), over idealised real arithmetic (float **
is real rpow, math.cos is Real.cos).  Three regimes: strictly after the pulse
end, the decay branch, whose pulse_volume is the function re-evaluated at the
pulse's own end (recursion that terminates in exactly one step); strictly
inside the pulse, the linear attack ramp clamped at PULSE_MAX; and at or
before the pulse start, where neither branch applies and the Python function
falls off its end returning None, modelled as none (the decay branch then
propagates that None into a TypeError, also modelled none). -/
def envelope (current_t pulse_start pulse_end : ℝ) : Option ℤ :=
  if pulse_end < current_t then
    match envelope pulse_end pulse_start pulse_end with
    | none => none
    | some pulse_volume =>
      some (intTrunc ((pulse_volume : ℝ) *
        (if ENERGY_TRANSFER_SPARK_DECAY ^
              ((current_t - pulse_end) / ENERGY_TRANSFER_TIME) <
            ENERGY_TRANSFER_EXPONENTIAL_DECAY_START
         then |Real.cos (Real.pi *
                ((current_t - pulse_end) / ENERGY_TRANSFER_TIME) / 2)|
         else 1) *
        ENERGY_TRANSFER_SPARK_DECAY ^
          ((current_t - pulse_end) / ENERGY_TRANSFER_TIME)))
  else if pulse_start < current_t then
    some (intTrunc (min (PULSE_INIT + PULSE_SLOPE * (current_t - pulse_start))
      PULSE_MAX))
  else none
termination_by (if pulse_end < current_t then 1 else 0 : ℕ)
decreasing_by simp [lt_irrefl, *]

end

/-- C10 amended: for every pulse (start ≤ end) and sample time at or before
the pulse start (including exactly at the start), neither branch of envelope
applies and it returns no integer at all — Python returns None — so a
sampling-loop call at such a time does not receive a valid amplitude. -/
theorem c10_envelope_none (t s e : ℝ) (hse : s ≤ e) (hts : t ≤ s) :
    envelope t s e = none := by
  rw [envelope]
  rw [if_neg (not_lt.mpr (le_trans hts hse)), if_neg (not_lt.mpr hts)]

/-- C10 amended, witness: at sample time 0 on the pulse (0, 1) the envelope
yields no value. -/
theorem c10_envelope_none_witness :
    (0 : ℝ) ≤ 1 ∧ (0 : ℝ) ≤ 0 ∧ envelope 0 0 1 = none :=
  ⟨by norm_num, le_refl 0, c10_envelope_none 0 0 1 (by norm_num) (le_refl 0)⟩

/-- C10 counterexample: the generator emits the degenerate pulse (0, 0), and
the sampling grid contains sample time 0; there envelope (called by the
sampling loop with current_t equal to the pulse's start) returns none (Python
None), not a defined integer amplitude. -/
theorem c10_counterexample : envelope 0 0 0 = none := by
  rw [envelope]
  simp [lt_irrefl]

/-- C7: for every pulse with start < end and every sample time strictly after
end, the envelope amplitude equals (the integer truncation of) peak * decay *
oscillation, where peak is the attack-ramp formula evaluated at end in
closed form (the one-step recursion resolved, no further recursion), periods
= (t - end)/ENERGY_TRANSFER_TIME, decay = 0.5 ^ periods, and oscillation is
1.0 when decay is at least the 0.1 threshold and |cos(pi * periods/2)|
otherwise. -/
theorem c7_envelope_decay (t s e : ℝ) (hse : s < e) (het : e < t) :
    envelope t s e =
      some (intTrunc
        ((intTrunc (min (PULSE_INIT + PULSE_SLOPE * (e - s)) PULSE_MAX) : ℝ) *
         (if ENERGY_TRANSFER_EXPONENTIAL_DECAY_START ≤
             ENERGY_TRANSFER_SPARK_DECAY ^ ((t - e) / ENERGY_TRANSFER_TIME)
          then 1
          else |Real.cos (Real.pi * ((t - e) / ENERGY_TRANSFER_TIME) / 2)|) *
         ENERGY_TRANSFER_SPARK_DECAY ^ ((t - e) / ENERGY_TRANSFER_TIME))) := by
  have hinner : envelope e s e =
      some (intTrunc (min (PULSE_INIT + PULSE_SLOPE * (e - s)) PULSE_MAX)) := by
    rw [envelope]
    rw [if_neg (lt_irrefl e), if_pos hse]
  rw [envelope, if_pos het, hinner]
  by_cases hd : ENERGY_TRANSFER_SPARK_DECAY ^ ((t - e) / ENERGY_TRANSFER_TIME) <
      ENERGY_TRANSFER_EXPONENTIAL_DECAY_START
  · rw [if_pos hd, if_neg (not_le.mpr hd)]
  · rw [if_neg hd, if_pos (not_lt.mp hd)]

/-- C7, witness: pulse (0, 1) and sample time 2. -/
theorem c7_envelope_decay_witness :
    (0 : ℝ) < 1 ∧ (1 : ℝ) < 2 ∧
    envelope 2 0 1 =
      some (intTrunc
        ((intTrunc (min (PULSE_INIT + PULSE_SLOPE * (1 - 0)) PULSE_MAX) : ℝ) *
         (if ENERGY_TRANSFER_EXPONENTIAL_DECAY_START ≤
             ENERGY_TRANSFER_SPARK_DECAY ^ ((2 - 1) / ENERGY_TRANSFER_TIME)
          then 1
          else |Real.cos (Real.pi * ((2 - 1) / ENERGY_TRANSFER_TIME) / 2)|) *
         ENERGY_TRANSFER_SPARK_DECAY ^ ((2 - 1) / ENERGY_TRANSFER_TIME))) :=
  ⟨by norm_num, by norm_num, c7_envelope_decay 2 0 1 (by norm_num) (by norm_num)⟩

/-- The timer-level facts needed for pulse ordering: positive static
configuration (as in both of the program's timers) and a counter within
[0, period). -/
def TimerOK (s : TimerState) : Prop :=
  0 < s.max ∧ (∀ v ∈ s.prescale_values, 0 < v ∧ v ≤ 1024) ∧
  0 < s.prescale ∧ 0 ≤ s.current ∧ s.current < s.top

/-- Pulses chained between lo and hi: each pulse starts no earlier than lo
(respectively the previous pulse's end) and ends no later than it starts. -/
def ChainLE (lo : ℚ) : List (ℚ × ℚ) → ℚ → Prop
  | [], hi => lo ≤ hi
  | p :: rest, hi => lo ≤ p.1 ∧ p.1 ≤ p.2 ∧ ChainLE p.2 rest hi

theorem chainLE_mono_hi {lo hi hi' : ℚ} {ps : List (ℚ × ℚ)}
    (h : ChainLE lo ps hi) (hh : hi ≤ hi') : ChainLE lo ps hi' := by
  induction ps generalizing lo with
  | nil => exact le_trans h hh
  | cons p rest ih => exact ⟨h.1, h.2.1, ih h.2.2⟩

theorem chainLE_append {lo m hi : ℚ} {ps : List (ℚ × ℚ)} {p : ℚ × ℚ}
    (h : ChainLE lo ps m) (h1 : m ≤ p.1) (h2 : p.1 ≤ p.2) (h3 : p.2 ≤ hi) :
    ChainLE lo (ps ++ [p]) hi := by
  induction ps generalizing lo with
  | nil => exact ⟨le_trans h h1, h2, h3⟩
  | cons q rest ih => exact ⟨h.1, h.2.1, ih h.2.2⟩

theorem chainLE_extract {lo hi : ℚ} {ps : List (ℚ × ℚ)}
    (h : ChainLE lo ps hi) (h0 : 0 ≤ lo) :
    (∀ p ∈ ps, 0 ≤ p.1 ∧ p.1 ≤ p.2) ∧ List.Chain' (fun p q => p.2 ≤ q.1) ps := by
  induction ps generalizing lo with
  | nil => exact ⟨by simp, List.chain'_nil⟩
  | cons p rest ih =>
    obtain ⟨hlp, hpp, hrest⟩ := h
    obtain ⟨hall, hchain⟩ := ih hrest (le_trans (le_trans h0 hlp) hpp)
    refine ⟨?_, ?_⟩
    · intro q hq
      rcases List.mem_cons.mp hq with rfl | hq
      · exact ⟨le_trans h0 hlp, hpp⟩
      · exact hall q hq
    · cases rest with
      | nil => simp
      | cons q rest' => exact List.chain'_cons.mpr ⟨hrest.1, hchain⟩

/-- next_change never lies before the timer's own last sync time. -/
theorem next_change_ge (s : TimerState) (h : TimerOK s) :
    s.current_t ≤ s.next_change := by
  obtain ⟨-, -, hp, hc0, hct⟩ := h
  have hpQ : (0 : ℚ) ≤ (s.prescale : ℚ) := by exact_mod_cast hp.le
  unfold TimerState.next_change
  split_ifs with hcs
  · have hcd : s.current < s.duty := by
      have := hcs
      unfold TimerState.current_state at this
      exact of_decide_eq_true this
    have h1 : (0 : ℚ) ≤ ((s.duty - s.current : ℤ) : ℚ) := by
      exact_mod_cast (by omega : (0 : ℤ) ≤ s.duty - s.current)
    have h2 : (0 : ℚ) ≤ ((s.duty - s.current : ℤ) : ℚ) * (s.prescale : ℚ) /
        ARDUINO_FREQ :=
      div_nonneg (mul_nonneg h1 hpQ) (le_of_lt ARDUINO_FREQ_pos)
    linarith
  · have h1 : (0 : ℚ) ≤ ((s.top - s.current : ℤ) : ℚ) := by
      exact_mod_cast (by omega : (0 : ℤ) ≤ s.top - s.current)
    have h2 : (0 : ℚ) ≤ ((s.top - s.current : ℤ) : ℚ) * (s.prescale : ℚ) /
        ARDUINO_FREQ :=
      div_nonneg (mul_nonneg h1 hpQ) (le_of_lt ARDUINO_FREQ_pos)
    linarith

/-- set_note preserves TimerOK for any target frequency below 31250 Hz (the
equal-tempered frequencies of all MIDI pitches 0-127 lie below 12544 Hz). -/
theorem set_note_ok (s : TimerState) (f : ℚ) (vol : ℕ) (h : TimerOK s)
    (hf : f < 31250) :
    ∀ s', s.set_note f vol = some s' → TimerOK s' ∧ s'.current_t = s.current_t := by
  intro s' hsn
  obtain ⟨hmax, hvb, hp, hc0, hct⟩ := h
  unfold TimerState.set_note at hsn
  by_cases hlow : f < s.min_freq
  · rw [if_pos hlow] at hsn
    injection hsn with h'
    subst h'
    exact ⟨⟨hmax, hvb, hp, hc0, hct⟩, rfl⟩
  · rw [if_neg hlow] at hsn
    cases hfind : s.prescale_values.find?
        (fun v => decide (ARDUINO_FREQ / ((s.max * v : ℤ) : ℚ) < f)) with
    | none =>
      rw [hfind] at hsn
      cases hsn
    | some v =>
      rw [hfind] at hsn
      injection hsn with h'
      subst h'
      have hvmem : v ∈ s.prescale_values := List.mem_of_find?_eq_some hfind
      have hpredB : decide (ARDUINO_FREQ / ((s.max * v : ℤ) : ℚ) < f) = true :=
        find?_pred hfind
      have hpred : ARDUINO_FREQ / ((s.max * v : ℤ) : ℚ) < f :=
        of_decide_eq_true hpredB
      have hvpos : 0 < v := (hvb v hvmem).1
      have hv1024 : v ≤ 1024 := (hvb v hvmem).2
      have hf0 : 0 < f := by
        refine lt_trans ?_ hpred
        apply div_pos ARDUINO_FREQ_pos
        exact_mod_cast mul_pos hmax hvpos
      have htop1 : 1 ≤ pyRound (ARDUINO_FREQ / ((v : ℚ) * f)) := by
        apply one_le_pyRound
        rw [lt_div_iff₀ (by positivity)]
        have hvQ : (v : ℚ) ≤ 1024 := by exact_mod_cast hv1024
        unfold ARDUINO_FREQ
        nlinarith
      refine ⟨⟨hmax, hvb, hvpos, ?_, ?_⟩, rfl⟩
      · dsimp only
        split_ifs <;> omega
      · dsimp only
        split_ifs with hcc
        · omega
        · omega

/-- The generator-loop invariant: both timers are in order and synchronised
with the cursor, the cursor is nonnegative, the recorded pulses are chained up
to the pending bound (the open pulse's start while energized, else the
cursor), and an open pulse never starts in the future. -/
def GenOK (g : GenState) : Prop :=
  TimerOK g.t1 ∧ TimerOK g.t2 ∧
  g.t1.current_t = g.current_t ∧ g.t2.current_t = g.current_t ∧
  0 ≤ g.current_t ∧
  ChainLE 0 g.pulses
    (if g.current_state then g.current_pulse_start else g.current_t) ∧
  (g.current_state = true → g.current_pulse_start ≤ g.current_t)

/-- update_state at a time not before the cursor succeeds and preserves the
generator invariant, moving the cursor to t. -/
theorem update_state_ok (g : GenState) (t : ℚ) (h : GenOK g)
    (ht : g.current_t ≤ t) :
    ∃ g', update_state g t = some g' ∧ GenOK g' ∧ g'.current_t = t ∧
      g'.current_tempo = g.current_tempo := by
  obtain ⟨h1, h2, hs1, hs2, h0, hch, hps⟩ := h
  obtain ⟨t1', hu1, h1c0, h1ct, h1t, h1top, h1duty, h1pre, h1max, h1pv, -⟩ :=
    update_bounds g.t1 t h1.2.2.1 h1.2.2.2.1
      (lt_of_le_of_lt h1.2.2.2.1 h1.2.2.2.2) (by rw [hs1]; exact ht)
  obtain ⟨t2', hu2, h2c0, h2ct, h2t, h2top, h2duty, h2pre, h2max, h2pv, -⟩ :=
    update_bounds g.t2 t h2.2.2.1 h2.2.2.2.1
      (lt_of_le_of_lt h2.2.2.2.1 h2.2.2.2.2) (by rw [hs2]; exact ht)
  have hok1 : TimerOK t1' := by
    refine ⟨?_, ?_, ?_, h1c0, ?_⟩
    · rw [h1max]; exact h1.1
    · rw [h1pv]; exact h1.2.1
    · rw [h1pre]; exact h1.2.2.1
    · rw [h1top]
      exact h1ct
  have hok2 : TimerOK t2' := by
    refine ⟨?_, ?_, ?_, h2c0, ?_⟩
    · rw [h2max]; exact h2.1
    · rw [h2pv]; exact h2.2.1
    · rw [h2pre]; exact h2.2.2.1
    · rw [h2top]
      exact h2ct
  have hMPL : (0 : ℚ) ≤ MAX_PULSE_LENGTH := by
    rw [MAX_PULSE_LENGTH_eq]
    norm_num
  unfold update_state
  rw [hu1, hu2]
  dsimp only
  by_cases hsame : (t1'.current_state || t2'.current_state) = g.current_state
  · rw [if_pos hsame]
    refine ⟨_, rfl, ⟨hok1, hok2, h1t, h2t, le_trans h0 ht, ?_, ?_⟩, rfl, rfl⟩
    · dsimp only
      cases hgs : g.current_state with
      | true =>
        rw [hgs] at hch
        simpa using hch
      | false =>
        rw [hgs] at hch
        simp only [Bool.false_eq_true, if_false] at hch ⊢
        exact chainLE_mono_hi hch ht
    · dsimp only
      intro hgs
      exact le_trans (hps hgs) ht
  · rw [if_neg hsame]
    by_cases hnew : (t1'.current_state || t2'.current_state) = true
    · rw [if_pos hnew]
      have hgs : g.current_state = false := by
        cases hgsv : g.current_state with
        | true => rw [hgsv] at hsame; rw [hnew] at hsame; simp at hsame
        | false => rfl
      rw [hgs] at hch
      refine ⟨_, rfl, ⟨hok1, hok2, h1t, h2t, le_trans h0 ht, ?_, ?_⟩, rfl, rfl⟩
      · dsimp only
        rw [if_pos hnew]
        exact chainLE_mono_hi (by simpa using hch) ht
      · dsimp only
        intro _
        exact le_refl t
    · rw [if_neg hnew]
      have hgs : g.current_state = true := by
        cases hgsv : g.current_state with
        | true => rfl
        | false => exact absurd ((Bool.eq_false_iff.mpr hnew).trans hgsv.symm) hsame
      rw [hgs] at hch hps
      have hpst : g.current_pulse_start ≤ t := le_trans (hps rfl) ht
      have hnewF : (t1'.current_state || t2'.current_state) = false :=
        Bool.eq_false_iff.mpr hnew
      refine ⟨_, rfl, ⟨hok1, hok2, h1t, h2t, le_trans h0 ht, ?_, ?_⟩, rfl, rfl⟩
      · dsimp only
        rw [hnewF]
        simp only [Bool.false_eq_true, if_false]
        refine chainLE_append (by simpa using hch) (le_refl _) ?_ ?_
        · exact le_min (by linarith) hpst
        · exact min_le_right _ _
      · dsimp only
        intro hcc
        rw [hnewF] at hcc
        cases hcc

/-- The while loop preserves the generator invariant and lands the cursor
exactly on cmd_t whenever it terminates within its fuel. -/
theorem advance_ok (fuel : ℕ) (g : GenState) (T : ℚ) (h : GenOK g)
    (ht : g.current_t ≤ T) :
    ∀ g', advance fuel g T = some g' →
      GenOK g' ∧ g'.current_t = T ∧ g'.current_tempo = g.current_tempo := by
  induction fuel generalizing g with
  | zero =>
    intro g' hg'
    unfold advance at hg'
    split_ifs at hg' with hlt
    cases hg'
    exact ⟨h, le_antisymm ht (not_lt.mp hlt), rfl⟩
  | succ n ih =>
    intro g' hg'
    unfold advance at hg'
    split_ifs at hg' with hlt hnc
    · have hnc_ge : g.current_t ≤ min g.t1.next_change g.t2.next_change := by
        apply le_min
        · rw [← h.2.2.1]
          exact next_change_ge g.t1 h.1
        · rw [← h.2.2.2.1]
          exact next_change_ge g.t2 h.2.1
      obtain ⟨g2, hu, hok2, ht2, htmp2⟩ := update_state_ok g _ h hnc_ge
      rw [hu] at hg'
      obtain ⟨hok', ht', htmp'⟩ := ih g2 hok2 (by rw [ht2]; exact le_of_lt hnc) g' hg'
      exact ⟨hok', ht', by rw [htmp', htmp2]⟩
    · obtain ⟨g2, hu, hok2, ht2, htmp2⟩ := update_state_ok g T h (le_of_lt hlt)
      rw [hu] at hg'
      cases hg'
      exact ⟨hok2, ht2, htmp2⟩
    · cases hg'
      exact ⟨h, le_antisymm ht (not_lt.mp hlt), rfl⟩

/-- Applying one command preserves the generator invariant and the cursor, and
keeps the tempo nonnegative, provided every frequency the table can deliver is
below 31250 Hz and the command is valid. -/
theorem applyCmd_ok (freqOf : ℤ → ℚ) (hfr : ∀ n, freqOf n < 31250)
    (g : GenState) (cmd : MidiCmd) (h : GenOK g) (hv : cmd.Valid)
    (htempo : 0 ≤ g.current_tempo) :
    ∀ g', applyCmd freqOf g cmd = some g' →
      GenOK g' ∧ g'.current_t = g.current_t ∧ 0 ≤ g'.current_tempo ∧
      g'.current_state = g.current_state ∧ g'.pulses = g.pulses ∧
      g'.current_pulse_start = g.current_pulse_start := by
  obtain ⟨h1, h2, hs1, hs2, h0, hch, hps⟩ := h
  intro g' happ
  cases cmd with
  | tempoSet time tempo =>
    cases happ
    exact ⟨⟨h1, h2, hs1, hs2, h0, hch, hps⟩, rfl, hv.2, rfl, rfl, rfl⟩
  | bothOff time =>
    cases happ
    refine ⟨⟨?_, ?_, hs1, hs2, h0, hch, hps⟩, rfl, htempo, rfl, rfl, rfl⟩
    · exact ⟨h1.1, h1.2.1, h1.2.2.1, h1.2.2.2.1, h1.2.2.2.2⟩
    · exact ⟨h2.1, h2.2.1, h2.2.2.1, h2.2.2.2.1, h2.2.2.2.2⟩
  | noteOff time timer =>
    unfold applyCmd at happ
    dsimp only at happ
    split_ifs at happ
    · cases happ
      exact ⟨⟨⟨h1.1, h1.2.1, h1.2.2.1, h1.2.2.2.1, h1.2.2.2.2⟩, h2, hs1, hs2,
        h0, hch, hps⟩, rfl, htempo, rfl, rfl, rfl⟩
    · cases happ
      exact ⟨⟨h1, ⟨h2.1, h2.2.1, h2.2.2.1, h2.2.2.2.1, h2.2.2.2.2⟩, hs1, hs2,
        h0, hch, hps⟩, rfl, htempo, rfl, rfl, rfl⟩
  | noteOn time timer note volume =>
    unfold applyCmd at happ
    dsimp only at happ
    split_ifs at happ
    · cases hsn : g.t1.set_note (freqOf note) volume with
      | none =>
        rw [hsn] at happ
        cases happ
      | some t1' =>
        rw [hsn] at happ
        cases happ
        obtain ⟨hok1, ht1⟩ := set_note_ok g.t1 (freqOf note) volume h1 (hfr note) t1' hsn
        exact ⟨⟨hok1, h2, by rw [ht1]; exact hs1, hs2, h0, hch, hps⟩, rfl,
          htempo, rfl, rfl, rfl⟩
    · cases hsn : g.t2.set_note (freqOf note) volume with
      | none =>
        rw [hsn] at happ
        cases happ
      | some t2' =>
        rw [hsn] at happ
        cases happ
        obtain ⟨hok2, ht2⟩ := set_note_ok g.t2 (freqOf note) volume h2 (hfr note) t2' hsn
        exact ⟨⟨h1, hok2, hs1, by rw [ht2]; exact hs2, h0, hch, hps⟩, rfl,
          htempo, rfl, rfl, rfl⟩

/-- One for-loop iteration preserves the generator invariant; the returned
time is the new cursor position. -/
theorem step_ok (fuel : ℕ) (freqOf : ℤ → ℚ) (hfr : ∀ n, freqOf n < 31250)
    (tpb : ℤ) (htpb : 0 < tpb) (last : ℚ) (g : GenState) (cmd : MidiCmd)
    (h : GenOK g) (htempo : 0 ≤ g.current_tempo) (hv : cmd.Valid)
    (hlast : g.current_t = last) :
    ∀ t' g', step fuel freqOf tpb last g cmd = some (t', g') →
      GenOK g' ∧ 0 ≤ g'.current_tempo ∧ g'.current_t = t' := by
  intro t' g' hstep
  unfold step at hstep
  dsimp only at hstep
  have hge : g.current_t ≤ last +
      ((cmd.time * g.current_tempo : ℤ) : ℚ) / (1000000 * (tpb : ℚ)) := by
    have hnum : (0 : ℚ) ≤ ((cmd.time * g.current_tempo : ℤ) : ℚ) := by
      exact_mod_cast mul_nonneg hv.1 htempo
    have hden : (0 : ℚ) < 1000000 * (tpb : ℚ) := by
      have : (0 : ℚ) < (tpb : ℚ) := by exact_mod_cast htpb
      linarith
    have := div_nonneg hnum hden.le
    rw [hlast]
    linarith
  cases hadv : advance fuel g
      (last + ((cmd.time * g.current_tempo : ℤ) : ℚ) / (1000000 * (tpb : ℚ))) with
  | none =>
    rw [hadv] at hstep
    cases hstep
  | some g1 =>
    rw [hadv] at hstep
    dsimp only at hstep
    obtain ⟨hok1, ht1, htmp1⟩ := advance_ok fuel g _ h hge g1 hadv
    cases happ : applyCmd freqOf g1 cmd with
    | none =>
      rw [happ] at hstep
      cases hstep
    | some g2 =>
      rw [happ] at hstep
      dsimp only at hstep
      obtain ⟨hok2, ht2, htempo2, -, -, -⟩ :=
        applyCmd_ok freqOf hfr g1 cmd hok1 hv (by rw [htmp1]; exact htempo) g2 happ
      obtain ⟨g3, hu3, hok3, ht3, htmp3⟩ :=
        update_state_ok g2 _ hok2 (by rw [ht2, ht1])
      rw [hu3] at hstep
      dsimp only at hstep
      simp only [Option.some.injEq, Prod.mk.injEq] at hstep
      obtain ⟨rfl, rfl⟩ := hstep
      exact ⟨hok3, by rw [htmp3]; exact htempo2, ht3⟩

/-- The whole command loop preserves the generator invariant. -/
theorem run_cmds_ok (fuel : ℕ) (freqOf : ℤ → ℚ) (hfr : ∀ n, freqOf n < 31250)
    (tpb : ℤ) (htpb : 0 < tpb) :
    ∀ (cmds : List MidiCmd) (last : ℚ) (g : GenState), GenOK g →
      0 ≤ g.current_tempo → g.current_t = last → (∀ c ∈ cmds, c.Valid) →
      ∀ gf, run_cmds fuel freqOf tpb last g cmds = some gf → GenOK gf := by
  intro cmds
  induction cmds with
  | nil =>
    intro last g hok _ _ _ gf h
    unfold run_cmds at h
    cases h
    exact hok
  | cons cmd rest ih =>
    intro last g hok htempo hlast hv gf hrun
    unfold run_cmds at hrun
    cases hstep : step fuel freqOf tpb last g cmd with
    | none =>
      rw [hstep] at hrun
      cases hrun
    | some p =>
      rw [hstep] at hrun
      obtain ⟨t', g'⟩ := p
      obtain ⟨hok', htempo', ht'⟩ := step_ok fuel freqOf hfr tpb htpb last g cmd
        hok htempo (hv cmd (List.mem_cons_self _ _)) hlast t' g' hstep
      exact ih t' g' hok' htempo' ht'
        (fun c hc => hv c (List.mem_cons_of_mem _ hc)) gf hrun

/-- C3 amended: for every valid event stream (nonnegative deltas and tempi,
pitches whose frequency table stays below 31250 Hz — true of all MIDI pitches
0-127), positive ticks-per-beat, and incoming timer states that are in order
with last_sync_time 0 (as the program's two global timers initially are), any
pulse list the generator returns is time-ordered and non-overlapping — each
pulse starts no earlier than the previous pulse's end — and every pulse has
nonnegative (not necessarily strictly positive) duration and a nonnegative
start. -/
theorem c3_pulses_ordered (fuel : ℕ) (freqOf : ℤ → ℚ) (tpb : ℤ)
    (t1 t2 : TimerState) (cmds : List MidiCmd)
    (hfr : ∀ n, freqOf n < 31250) (htpb : 0 < tpb)
    (h1 : TimerOK t1) (h2 : TimerOK t2)
    (ht1 : t1.current_t = 0) (ht2 : t2.current_t = 0)
    (hv : ∀ c ∈ cmds, c.Valid) :
    ∀ ps r1 r2, generate_logic_signal fuel freqOf tpb t1 t2 cmds = some (ps, r1, r2) →
      (∀ p ∈ ps, 0 ≤ p.1 ∧ p.1 ≤ p.2) ∧ List.Chain' (fun p q => p.2 ≤ q.1) ps := by
  intro ps r1 r2 hgen
  unfold generate_logic_signal at hgen
  cases hrun : run_cmds fuel freqOf tpb 0
      { t1 := t1, t2 := t2, current_state := true, current_pulse_start := 0,
        pulses := [], current_t := 0, current_tempo := 0 } cmds with
  | none =>
    rw [hrun] at hgen
    cases hgen
  | some gf =>
    rw [hrun] at hgen
    simp only [Option.map_some', Option.some.injEq, Prod.mk.injEq] at hgen
    obtain ⟨hps, -, -⟩ := hgen
    have hinit : GenOK
        { t1 := t1, t2 := t2, current_state := true,
          current_pulse_start := 0, pulses := [], current_t := 0,
          current_tempo := 0 } := by
      refine ⟨h1, h2, ht1, ht2, le_refl 0, ?_, ?_⟩
      · dsimp only
        simp only [if_true]
        exact le_refl (0 : ℚ)
      · intro _
        exact le_refl (0 : ℚ)
    have hok := run_cmds_ok fuel freqOf hfr tpb htpb cmds 0 _ hinit
      (le_refl 0) rfl hv gf hrun
    obtain ⟨hall, hchain⟩ := chainLE_extract hok.2.2.2.2.2.1 (le_refl 0)
    rw [← hps]
    exact ⟨hall, hchain⟩

/- Concrete evaluations.  The rational arithmetic of the embedding is made
reducible so that `decide` can evaluate whole timer and generator runs; the
kernel re-checks every evaluation. -/

set_option allowUnsafeReducibility true in
attribute [reducible] Rat.add Rat.sub Rat.mul Rat.div Rat.inv Rat.neg Rat.blt

/-- A single tempo-set command at delta time zero (500000 us per quarter is
the MIDI default tempo). -/
def tempoOnlyCmds : List MidiCmd := [.tempoSet 0 500000]

/-- A note-on of A4 at intensity 10 on timer 1, with no later event. -/
def loneNoteOnCmds : List MidiCmd := [.noteOn 0 1 69 10]

/-- A4 held for exactly one MIDI tick: at tempo 9600 us per quarter note and
480 ticks per beat, one tick lasts 9600/(1000000*480) s = 1/50000 s, which is
exactly MAX_PULSE_LENGTH; the trailing tempo event only moves the cursor. -/
def heldA4cmds : List MidiCmd :=
  [.tempoSet 0 9600, .noteOn 0 1 69 10, .tempoSet 1 9600]

/-- Timer1's state after the held-A4 run: set_note gave prescale 1, period
36364 and duty 320; the cursor then advanced 320 ticks to t = 1/50000. -/
def heldA4T1 : TimerState :=
  { Timer1 with top := 36364, duty := 320, current := 320, current_t := 1/50000 }

/-- Timer2's state after the held-A4 run: its duty stayed 0 and its counter
advanced 320 ticks, wrapping modulo 256 to 64, at t = 1/50000. -/
def heldA4T2 : TimerState :=
  { Timer2 with current := 64, current_t := 1/50000 }

set_option maxRecDepth 4000 in
/-- C1: update does not fail fast on a target time strictly before the
timer's last sync time.  Timer1 updated to t = 1 and then to t = 1/2 < 1
silently accepts the call: round((1/2 - 1)*16000000/1) = -8000000 ticks are
added and the wrap line leaves the counter at the negative value -60928
instead of signalling a contract violation. -/
theorem c1_update_no_failfast :
    ((1 : ℚ)/2 < 1) ∧
    ((Timer1.update 1).bind (fun s => s.update (1/2))).map
      (fun s => (s.current, s.current_t)) = some (-60928, 1/2) := by
  exact ⟨by norm_num, by decide⟩

set_option maxRecDepth 4000 in
/-- C3 counterexample: a lone tempo event at delta time zero makes the run
emit the zero-duration pulse (0, 0) — the generator starts with
current_state = True, so its first update sees a falling edge at time 0 —
refuting strictly positive pulse duration (and hence strict ordering). -/
theorem c3_counterexample :
    generate_logic_signal 1 freqA4 480 Timer1 Timer2 tempoOnlyCmds =
      some ([(0, 0)], Timer1, Timer2) ∧
    ¬ (∀ p ∈ [((0 : ℚ), (0 : ℚ))], p.1 < p.2) := by
  exact ⟨by decide, by decide⟩

set_option maxRecDepth 4000 in
/-- C3 witness: the ordering theorem applied to the lone-tempo run, whose
pulse list is [(0, 0)]. -/
theorem c3_pulses_ordered_witness :
    (∀ p ∈ [((0 : ℚ), (0 : ℚ))], 0 ≤ p.1 ∧ p.1 ≤ p.2) ∧
    List.Chain' (fun p q => p.2 ≤ q.1) [((0 : ℚ), (0 : ℚ))] :=
  c3_pulses_ordered 1 freqA4 480 Timer1 Timer2 tempoOnlyCmds
    (fun n => by unfold freqA4; split_ifs <;> norm_num) (by norm_num)
    (by unfold TimerOK; decide) (by unfold TimerOK; decide)
    (by decide) (by decide) (by decide)
    [((0 : ℚ), (0 : ℚ))] Timer1 Timer2 (by decide)

set_option maxRecDepth 4000 in
/-- C4 witness: the selection theorem applied to Timer1 and the A4 frequency
440 Hz, which lies above the timer's minimum frequency; set_note succeeds. -/
theorem c4_set_note_spec_witness :
    Timer1.min_freq < 440 ∧ (Timer1.set_note 440 10).isSome = true := by
  have h := c4_set_note_spec Timer1 440 10
    ⟨by decide, by decide, by decide, by decide, by decide⟩
  have hlt : Timer1.min_freq < 440 := by decide
  obtain ⟨v, -, -, -, heq⟩ := h.2 hlt
  exact ⟨hlt, by rw [heq]; rfl⟩

/-- C5 witness: the invariant-preservation theorem applied to the freshly
constructed Timer1. -/
theorem c5_invariants_witness :
    (∀ f vol s', f ≤ 12544 → Timer1.set_note f vol = some s' → TimerInv s') ∧
    TimerInv Timer1.set_off ∧
    (∀ t s', Timer1.current_t ≤ t → Timer1.update t = some s' → TimerInv s') :=
  c5_invariants Timer1 (Or.inl ⟨rfl, rfl⟩) (by unfold TimerInv; decide)

set_option maxRecDepth 4000 in
/-- C6 counterexample: the freshly constructed Timer1 has duty 0 and output
low; advancing it to its own next_change (the period boundary) leaves the
output low — no flip occurs at the period boundary while the duty is zero. -/
theorem c6_counterexample :
    Timer1.current_state = false ∧ Timer1.duty = 0 ∧
    (Timer1.update Timer1.next_change).map TimerState.current_state =
      some false := by
  exact ⟨by decide, by decide, by decide⟩

set_option maxRecDepth 4000 in
/-- C8 amended: a note-on that is followed by a later event is capped at
MAX_PULSE_LENGTH: the held-A4 stream yields the startup artifact pulse (0, 0)
and the pulse (0, MAX_PULSE_LENGTH), whose closing time
min(start + MAX_PULSE_LENGTH, cursor) equals exactly MAX_PULSE_LENGTH. -/
theorem c8_held_note_capped :
    (generate_logic_signal 5 freqA4 480 Timer1 Timer2 heldA4cmds).map
      (fun r => r.1) = some [(0, 0), (0, MAX_PULSE_LENGTH)] ∧
    min ((0 : ℚ) + MAX_PULSE_LENGTH) (1/50000) = MAX_PULSE_LENGTH := by
  exact ⟨by decide, by decide⟩

set_option maxRecDepth 4000 in
/-- C8 counterexample: the stream with a single note-on and nothing after it
produces no pulse at all — the command loop ends before any falling edge — so
no pulse of duration MAX_PULSE_LENGTH exists, contrary to the claim about a
lone held note. -/
theorem c8_counterexample :
    (generate_logic_signal 1 freqA4 480 Timer1 Timer2 loneNoteOnCmds).map
      (fun r => r.1) = some [] ∧
    ¬ ∃ p ∈ ([] : List (ℚ × ℚ)), p.2 - p.1 = MAX_PULSE_LENGTH := by
  exact ⟨by decide, by decide⟩

set_option maxRecDepth 4000 in
/-- C9: timer state leaks across runs.  The held-A4 stream run from the
freshly constructed module-level timers yields pulses [(0,0), (0,1/50000)]
and leaves the timers in states heldA4T1 and heldA4T2; the identical stream
run again from those leaked states yields the different pulse list
[(0, 1/50000)] — repeated conversions are not bit-identical. -/
theorem c9_reruns_diverge :
    generate_logic_signal 5 freqA4 480 Timer1 Timer2 heldA4cmds =
      some ([(0, 0), (0, 1/50000)], heldA4T1, heldA4T2) ∧
    (generate_logic_signal 5 freqA4 480 heldA4T1 heldA4T2 heldA4cmds).map
      (fun r => r.1) = some [(0, 1/50000)] ∧
    ([(0, 1/50000)] : List (ℚ × ℚ)) ≠ [(0, 0), (0, 1/50000)] := by
  exact ⟨by decide, by decide, by decide⟩

end TeslaWav
